import Mathlib

/-!
Verification of the pyknp KNP module (`pyknp/knp/knp.py`) and its Analyzer
(`pyknp/utils/analyzer.py`).

Strings are embedded as `List Char` (`Str`), which matches Python `str`
semantics for the operations the code uses: every separator the code splits
on (`'\n'`, `'\t'`, `'|'`, `':'`, `';'`) is a single character, and
`splitChar` below reproduces Python's `str.split(sep)` for a one-character
separator (empty pieces preserved, `''.split(sep) == ['']`).

Python `IndexError` (out-of-range subscript on a field list) is embedded as
an `Except` error value; all other code paths are total.
-/

namespace PyKNP

abbrev Str := List Char

/-- Convert a Lean string literal to the `List Char` representation. -/
def strL (s : String) : Str := s.toList

/-- Python `line.split(sep)` for a single-character separator `sep`:
splits on every occurrence, preserving empty pieces; the result is never
empty (`''.split(sep) == ['']`). -/
def splitChar (sep : Char) : Str → List Str
  | [] => [[]]
  | c :: rest =>
    let r := splitChar sep rest
    if c = sep then [] :: r
    else
      match r with
      | [] => [[c]]
      | g :: gs => (c :: g) :: gs

/-- Python `line.startswith('#')`. -/
def startsWithHash (l : Str) : Bool :=
  match l with
  | c :: _ => c = '#'
  | [] => false

/-- A lattice line that is neither a comment (`#`-initial) nor the sentence
terminator `EOS`: the main loop of `lattice_all2juman_lines` processes
exactly these lines as morpheme records. -/
def isMorphLine (l : Str) : Bool :=
  !startsWithHash l && l ≠ strL "EOS"

instance (l : Str) : Decidable (isMorphLine l = true) := by
  unfold isMorphLine; infer_instance

/-- Errors of the lattice converter, i.e. the Python `IndexError` raise
sites: `values[1]` in the loop of `lattice_all2juman_lines`, and the field
subscripts `values[5]` … `values[17]` inside `lattice2juman_line`. -/
inductive LatticeError where
  | mrphIdIndex
  | reconstructIndex
deriving DecidableEq, Repr

/-- Rank derivation from `lattice_all2juman_lines`:
`line.split('|')[-1].split(':')[-1]` followed by `.split(';')`. -/
def ranksOfLine (line : Str) : List Str :=
  splitChar ';' ((splitChar ':' ((splitChar '|' line).getLastD [])).getLastD [])

/-- Total body of `KNP.lattice2juman_line`: field extraction and assembly of
the flat JUMAN-format line, with `values.getD` standing for the Python
subscripts (all in range when `18 ≤ values.length`). -/
def mkJumanLine (values : List Str) (the_same_mrph_id : Bool) : Str :=
  let features := (strL "代表表記:" ++ values.getD 6 []) :: splitChar '|' (values.getD 17 [])
  let juman_values : List Str :=
    [values.getD 5 [], values.getD 7 [], values.getD 8 [], values.getD 9 [],
     values.getD 10 [], values.getD 11 [], values.getD 12 [], values.getD 13 [],
     values.getD 14 [], values.getD 15 [], values.getD 16 [],
     strL "\"" ++ List.intercalate (strL " ") features ++ strL "\""]
  let juman_line := List.intercalate (strL " ") juman_values
  if the_same_mrph_id then strL "@ " ++ juman_line else juman_line

/-- `KNP.lattice2juman_line(values, the_same_mrph_id)`: the Python body
subscripts `values[5]` … `values[17]`, so it raises `IndexError` exactly
when `values` has fewer than 18 entries; otherwise it returns the
reconstructed line (with the `@ ` continuation marker when
`the_same_mrph_id` is true). -/
def lattice2juman_line (values : List Str) (the_same_mrph_id : Bool) :
    Except LatticeError Str :=
  if 18 ≤ values.length then .ok (mkJumanLine values the_same_mrph_id)
  else .error .reconstructIndex

/-- The rank-keyed accumulator `juman_lines = defaultdict(list)`, embedded as
an insertion-ordered association list. -/
abbrev RankMap := List (Str × List Str)

/-- Python `juman_lines[rank].append(v)` on a `defaultdict(list)`: append to
the existing entry, or create a new entry at the end (dict insertion
order). -/
def addToRank : RankMap → Str → Str → RankMap
  | [], r, v => [(r, [v])]
  | (k, vs) :: rest, r, v =>
    if k = r then (k, vs ++ [v]) :: rest else (k, vs) :: addToRank rest r v

/-- The inner loop `for rank in ranks.split(';')` of
`lattice_all2juman_lines`: append the same reconstructed line under every
rank of the line's rank set. -/
def addRanks (m : RankMap) (ranks : List Str) (jline : Str) : RankMap :=
  ranks.foldl (fun m r => addToRank m r jline) m

/-- The main loop of `KNP.lattice_all2juman_lines` over the lines of the
input, threading the running `comment`, `prev_id` and the rank-keyed
accumulator. `values.get? 1` embeds the Python subscript `values[1]`. -/
def latticeLoop : List Str → Str → Str → RankMap → Except LatticeError (Str × RankMap)
  | [], comment, _, m => .ok (comment, m)
  | line :: rest, comment, prevId, m =>
    if startsWithHash line then latticeLoop rest line prevId m
    else if line = strL "EOS" then latticeLoop rest comment prevId m
    else
      let values := splitChar '\t' line
      match values.get? 1 with
      | none => .error .mrphIdIndex
      | some id1 =>
        let same : Bool := id1 == prevId
        match lattice2juman_line values same with
        | .error e => .error e
        | .ok jline =>
            latticeLoop rest comment (if same then prevId else id1)
              (addRanks m (ranksOfLine line) jline)

/-- Ordering used for the final `sorted(rank2juman_lines.items())`: compare
entries by rank identifier with the lexicographic (code-point) order on
strings, which is how Python compares the `(rank, lines)` tuples given that
dict keys are pairwise distinct. -/
def entryLe (a b : Str × List Str) : Prop := a.1 ≤ b.1

instance : DecidableRel entryLe := fun a b =>
  inferInstanceAs (Decidable (a.1 ≤ b.1))

instance : IsTotal (Str × List Str) entryLe := ⟨fun a b => le_total a.1 b.1⟩

instance : IsTrans (Str × List Str) entryLe := ⟨fun _ _ _ h h2 => le_trans h h2⟩

/-- Formatting of one output block:
`'{0}\n{1}\nEOS'.format(comment, '\n'.join(lines))`. -/
def blockStr (comment : Str) (lines : List Str) : Str :=
  comment ++ strL "\n" ++ List.intercalate (strL "\n") lines ++ strL "\n" ++ strL "EOS"

/-- `KNP.lattice_all2juman_lines(lattice_all)`: split the input on newlines,
run the main loop from `comment = ''`, `prev_id = '0'` and an empty
accumulator, then emit one block per rank in sorted rank order. -/
def lattice_all2juman_lines (lattice_all : Str) : Except LatticeError (List Str) :=
  match latticeLoop (splitChar '\n' lattice_all) [] (strL "0") [] with
  | .error e => .error e
  | .ok (comment, m) =>
      .ok ((List.insertionSort entryLe m).map fun e => blockStr comment e.2)

/-- Lines of the raw input, as the loop enumerates them. -/
def linesOf (input : Str) : List Str := splitChar '\n' input

/-- The morpheme-record lines of the input, in source order. -/
def morphLines (ls : List Str) : List Str := ls.filter isMorphLine

/-- Morpheme-identifier field of a line (tab-field index 1). -/
def field1 (l : Str) : Str := (splitChar '\t' l).getD 1 []

/-- Well-formedness of a lattice input: every morpheme-record line has the
full complement of 18 tab-separated fields (the versioned wire-format
contract assumed by the positional subscripts). -/
def WFLattice (input : Str) : Prop :=
  ∀ l ∈ morphLines (linesOf input), 18 ≤ (splitChar '\t' l).length

instance (input : Str) : Decidable (WFLattice input) := by
  unfold WFLattice; infer_instance

/-- The running `comment` after the loop: the last `#`-initial line seen, or
the initial value if none occurs. -/
def commentFold (ls : List Str) (c : Str) : Str :=
  ls.foldl (fun c l => if startsWithHash l then l else c) c

/-- The sequence of `the_same_mrph_id` flags computed by the loop for the
given sequence of morpheme-identifier fields, starting from running value
`p`: each flag compares the current id with the previous one (the loop
re-assigns `prev_id` only when the comparison fails, which is equivalent to
always re-assigning it). -/
def flagsFrom : List Str → Str → List Bool
  | [], _ => []
  | i :: rest, p => (i == p) :: flagsFrom rest i

/-- Morpheme-record lines of the input paired with their
`the_same_mrph_id` flags, starting from running id `p`. -/
def morphPairs (ls : List Str) (p : Str) : List (Str × Bool) :=
  (morphLines ls).zip (flagsFrom ((morphLines ls).map field1) p)

/-- Replay of the accumulator updates of the main loop over a list of
(line, flag) pairs. -/
def addAllPairs (m : RankMap) (pairs : List (Str × Bool)) : RankMap :=
  pairs.foldl
    (fun m q => addRanks m (ranksOfLine q.1) (mkJumanLine (splitChar '\t' q.1) q.2)) m

theorem flagsFrom_zipWith (ids : List Str) (p : Str) :
    flagsFrom ids p = List.zipWith (fun a b => a == b) ids (p :: ids) := by
  induction ids generalizing p with
  | nil => rfl
  | cons i rest ih => simp [flagsFrom, List.zipWith, ih i]

/-- Characterization of the main loop on well-formed line lists: it cannot
fail, the final comment is the last comment line, and the accumulator is the
replay of the per-line updates with the consecutive-id flags. -/
theorem latticeLoop_eq (ls : List Str) : ∀ (c p : Str) (m : RankMap),
    (∀ l ∈ morphLines ls, 18 ≤ (splitChar '\t' l).length) →
    latticeLoop ls c p m = .ok (commentFold ls c, addAllPairs m (morphPairs ls p)) := by
  induction ls with
  | nil =>
    intro c p m _
    simp [latticeLoop, commentFold, addAllPairs, morphPairs, morphLines, flagsFrom]
  | cons l rest ih =>
    intro c p m hwf
    by_cases hh : startsWithHash l = true
    · have hm : morphLines (l :: rest) = morphLines rest := by
        simp [morphLines, List.filter_cons, isMorphLine, hh]
      have hwf' : ∀ x ∈ morphLines rest, 18 ≤ (splitChar '\t' x).length := by
        intro x hx
        exact hwf x (by rw [hm]; exact hx)
      have hc : commentFold (l :: rest) c = commentFold rest l := by
        simp [commentFold, hh]
      have hp : morphPairs (l :: rest) p = morphPairs rest p := by
        simp [morphPairs, hm]
      rw [hc, hp]
      simpa [latticeLoop, hh] using ih l p m hwf'
    · by_cases he : l = strL "EOS"
      · have hm : morphLines (l :: rest) = morphLines rest := by
          simp [morphLines, List.filter_cons, isMorphLine, hh, he]
        have hwf' : ∀ x ∈ morphLines rest, 18 ≤ (splitChar '\t' x).length := by
          intro x hx
          exact hwf x (by rw [hm]; exact hx)
        have hc : commentFold (l :: rest) c = commentFold rest c := by
          simp [commentFold, hh]
        have hp : morphPairs (l :: rest) p = morphPairs rest p := by
          simp [morphPairs, hm]
        rw [hc, hp]
        simpa [latticeLoop, hh, he] using ih c p m hwf'
      · have hml : isMorphLine l = true := by
          simp [isMorphLine, hh, he]
        have hm : morphLines (l :: rest) = l :: morphLines rest := by
          simp [morphLines, List.filter_cons, hml]
        have hwf' : ∀ x ∈ morphLines rest, 18 ≤ (splitChar '\t' x).length := by
          intro x hx
          exact hwf x (by rw [hm]; exact List.mem_cons_of_mem _ hx)
        have hlen : 18 ≤ (splitChar '\t' l).length := by
          exact hwf l (by rw [hm]; exact List.mem_cons_self _ _)
        have h1 : 1 < (splitChar '\t' l).length := lt_of_lt_of_le (by norm_num) hlen
        have hf1 : field1 l = (splitChar '\t' l)[1] := List.getD_eq_getElem _ [] h1
        have hv : (splitChar '\t' l)[1]? = some (field1 l) := by
          rw [List.getElem?_eq_getElem h1, hf1]
        have hc : commentFold (l :: rest) c = commentFold rest c := by
          simp [commentFold, hh]
        have hpp : morphPairs (l :: rest) p =
            (l, field1 l == p) :: morphPairs rest (field1 l) := by
          simp [morphPairs, hm, flagsFrom]
        have hjl : lattice2juman_line (splitChar '\t' l) (field1 l == p)
            = .ok (mkJumanLine (splitChar '\t' l) (field1 l == p)) := by
          simp [lattice2juman_line, hlen]
        have hprev : (if field1 l = p then p else field1 l) = field1 l := by
          by_cases hb : field1 l = p
          · rw [if_pos hb, hb]
          · rw [if_neg hb]
        rw [hc, hpp]
        have hstep : latticeLoop (l :: rest) c p m =
            latticeLoop rest c (if field1 l = p then p else field1 l)
              (addRanks m (ranksOfLine l)
                (mkJumanLine (splitChar '\t' l) (field1 l == p))) := by
          simp [latticeLoop, hh, he, hv, hjl]
        rw [hstep, hprev]
        rw [show addAllPairs m ((l, field1 l == p) :: morphPairs rest (field1 l))
            = addAllPairs (addRanks m (ranksOfLine l)
                (mkJumanLine (splitChar '\t' l) (field1 l == p)))
                (morphPairs rest (field1 l)) from rfl]
        exact ih c _ _ hwf'

/-- The converter on well-formed input: split on newlines, replay the loop,
sort the accumulated rank map and format one block per rank. -/
theorem lattice_all2juman_lines_eq (input : Str) (hwf : WFLattice input) :
    lattice_all2juman_lines input =
      .ok ((List.insertionSort entryLe
            (addAllPairs [] (morphPairs (linesOf input) (strL "0")))).map
          fun e => blockStr (commentFold (linesOf input) []) e.2) := by
  unfold lattice_all2juman_lines
  rw [show splitChar '\n' input = linesOf input from rfl]
  rw [latticeLoop_eq (linesOf input) [] (strL "0") [] hwf]

/-- Rank identifiers (keys) of the accumulator, in insertion order. -/
def keysOf (m : RankMap) : List Str := m.map Prod.fst

/-- Effect of one `defaultdict` access on the key list: an existing key
leaves the list unchanged, a fresh key is appended. -/
def insertNew (ks : List Str) (r : Str) : List Str :=
  if r ∈ ks then ks else ks ++ [r]

/-- The distinct rank identifiers appearing in the input's morpheme-record
lines, in order of first appearance. -/
def distinctRanks (input : Str) : List Str :=
  (morphLines (linesOf input)).foldl (fun ks l => (ranksOfLine l).foldl insertNew ks) []

/-- Lookup of one rank's accumulated line list. -/
def findRank : RankMap → Str → Option (List Str)
  | [], _ => none
  | (k, vs) :: rest, r => if k = r then some vs else findRank rest r

theorem keysOf_addToRank (m : RankMap) (r v : Str) :
    keysOf (addToRank m r v) = insertNew (keysOf m) r := by
  induction m with
  | nil => simp [keysOf, addToRank, insertNew]
  | cons e rest ih =>
    obtain ⟨k, vs⟩ := e
    by_cases hk : k = r
    · subst hk
      simp [keysOf, addToRank, insertNew]
    · have h1 : addToRank ((k, vs) :: rest) r v = (k, vs) :: addToRank rest r v := by
        simp [addToRank, hk]
      rw [h1]
      rw [show keysOf ((k, vs) :: addToRank rest r v)
          = k :: keysOf (addToRank rest r v) from rfl]
      rw [ih]
      rw [show keysOf ((k, vs) :: rest) = k :: keysOf rest from rfl]
      unfold insertNew
      have hne : r ≠ k := fun h => hk h.symm
      by_cases hr : r ∈ keysOf rest
      · rw [if_pos hr, if_pos (List.mem_cons_of_mem _ hr)]
      · rw [if_neg hr, if_neg (by
          intro hcon
          rcases List.mem_cons.1 hcon with h | h
          · exact hne h
          · exact hr h)]
        rfl

theorem keysOf_addRanks (ranks : List Str) : ∀ (m : RankMap) (v : Str),
    keysOf (addRanks m ranks v) = ranks.foldl insertNew (keysOf m) := by
  induction ranks with
  | nil => intro m v; rfl
  | cons r rs ih =>
    intro m v
    rw [show addRanks m (r :: rs) v = addRanks (addToRank m r v) rs v from rfl]
    rw [ih, keysOf_addToRank]
    rfl

theorem keysOf_addAllPairs (pairs : List (Str × Bool)) : ∀ (m : RankMap),
    keysOf (addAllPairs m pairs)
      = pairs.foldl (fun ks q => (ranksOfLine q.1).foldl insertNew ks) (keysOf m) := by
  induction pairs with
  | nil => intro m; rfl
  | cons q ps ih =>
    intro m
    rw [show addAllPairs m (q :: ps)
        = addAllPairs (addRanks m (ranksOfLine q.1)
            (mkJumanLine (splitChar '\t' q.1) q.2)) ps from rfl]
    rw [ih, keysOf_addRanks]
    rfl

theorem insertNew_nodup {ks : List Str} (h : ks.Nodup) (r : Str) :
    (insertNew ks r).Nodup := by
  unfold insertNew
  by_cases hr : r ∈ ks
  · simpa [hr] using h
  · simp [hr, List.nodup_append, h]

theorem mem_insertNew {x r : Str} {ks : List Str} :
    x ∈ insertNew ks r ↔ x ∈ ks ∨ x = r := by
  unfold insertNew
  by_cases hr : r ∈ ks
  · simp only [if_pos hr]
    constructor
    · exact Or.inl
    · rintro (h | h)
      · exact h
      · rw [h]; exact hr
  · simp [hr]

theorem foldl_insertNew_nodup (rs : List Str) : ∀ {ks : List Str}, ks.Nodup →
    (rs.foldl insertNew ks).Nodup := by
  induction rs with
  | nil => intro ks h; exact h
  | cons r rest ih => intro ks h; exact ih (insertNew_nodup h r)

theorem mem_foldl_insertNew (rs : List Str) : ∀ (ks : List Str) (x : Str),
    x ∈ rs.foldl insertNew ks ↔ x ∈ ks ∨ x ∈ rs := by
  induction rs with
  | nil => intro ks x; simp
  | cons r rest ih =>
    intro ks x
    rw [List.foldl_cons, ih, mem_insertNew]
    constructor
    · rintro ((h | h) | h)
      · exact Or.inl h
      · exact Or.inr (by rw [h]; exact List.mem_cons_self _ _)
      · exact Or.inr (List.mem_cons_of_mem _ h)
    · rintro (h | h)
      · exact Or.inl (Or.inl h)
      · rcases List.mem_cons.1 h with h | h
        · exact Or.inl (Or.inr h)
        · exact Or.inr h

theorem foldl_ranks_nodup (ls : List Str) : ∀ {ks : List Str}, ks.Nodup →
    (ls.foldl (fun ks l => (ranksOfLine l).foldl insertNew ks) ks).Nodup := by
  induction ls with
  | nil => intro ks h; exact h
  | cons l rest ih =>
    intro ks h
    exact ih (foldl_insertNew_nodup _ h)

theorem mem_foldl_ranks (ls : List Str) : ∀ (ks : List Str) (x : Str),
    x ∈ ls.foldl (fun ks l => (ranksOfLine l).foldl insertNew ks) ks
      ↔ x ∈ ks ∨ ∃ l ∈ ls, x ∈ ranksOfLine l := by
  induction ls with
  | nil => intro ks x; simp
  | cons l rest ih =>
    intro ks x
    rw [List.foldl_cons, ih, mem_foldl_insertNew]
    constructor
    · rintro ((h | h) | ⟨y, hy, hx⟩)
      · exact Or.inl h
      · exact Or.inr ⟨l, List.mem_cons_self _ _, h⟩
      · exact Or.inr ⟨y, List.mem_cons_of_mem _ hy, hx⟩
    · rintro (h | ⟨y, hy, hx⟩)
      · exact Or.inl (Or.inl h)
      · rcases List.mem_cons.1 hy with h | h
        · exact Or.inl (Or.inr (h ▸ hx))
        · exact Or.inr ⟨y, h, hx⟩

theorem distinctRanks_nodup (input : Str) : (distinctRanks input).Nodup :=
  foldl_ranks_nodup _ List.nodup_nil

theorem mem_distinctRanks (input : Str) (r : Str) :
    r ∈ distinctRanks input ↔ ∃ l ∈ morphLines (linesOf input), r ∈ ranksOfLine l := by
  unfold distinctRanks
  rw [mem_foldl_ranks]
  simp

theorem flagsFrom_length (ids : List Str) : ∀ (p : Str),
    (flagsFrom ids p).length = ids.length := by
  induction ids with
  | nil => intro p; rfl
  | cons i rest ih => intro p; simp [flagsFrom, ih i]

theorem morphPairs_map_fst (ls : List Str) (p : Str) :
    (morphPairs ls p).map Prod.fst = morphLines ls := by
  unfold morphPairs
  exact List.map_fst_zip _ _ (by rw [flagsFrom_length, List.length_map])

/-- The keys of the replayed accumulator are exactly the distinct rank
identifiers of the input, in first-appearance order. -/
theorem keysOf_replay (input : Str) :
    keysOf (addAllPairs [] (morphPairs (linesOf input) (strL "0")))
      = distinctRanks input := by
  rw [keysOf_addAllPairs]
  rw [show keysOf ([] : RankMap) = [] from rfl]
  unfold distinctRanks
  rw [← morphPairs_map_fst (linesOf input) (strL "0"), List.foldl_map]

theorem findRank_addToRank_self (m : RankMap) (r v : Str) :
    findRank (addToRank m r v) r = some ((findRank m r).getD [] ++ [v]) := by
  induction m with
  | nil => simp [addToRank, findRank]
  | cons e rest ih =>
    obtain ⟨k, vs⟩ := e
    by_cases hk : k = r
    · subst hk
      simp [addToRank, findRank]
    · simp [addToRank, findRank, hk, ih]

theorem findRank_addToRank_ne (m : RankMap) {x r : Str} (h : x ≠ r) (v : Str) :
    findRank (addToRank m r v) x = findRank m x := by
  induction m with
  | nil => simp [addToRank, findRank, Ne.symm h]
  | cons e rest ih =>
    obtain ⟨k, vs⟩ := e
    by_cases hk : k = r
    · subst hk
      simp [addToRank, findRank, Ne.symm h]
    · simp [addToRank, findRank, hk, ih]

theorem findRank_getD_addRanks (ranks : List Str) : ∀ (m : RankMap) (v x : Str),
    ranks.Nodup →
    (findRank (addRanks m ranks v) x).getD []
      = (findRank m x).getD [] ++ (if x ∈ ranks then [v] else []) := by
  induction ranks with
  | nil => intro m v x _; simp [addRanks]
  | cons r rs ih =>
    intro m v x hnd
    have hr : r ∉ rs := (List.nodup_cons.1 hnd).1
    have hnd' : rs.Nodup := (List.nodup_cons.1 hnd).2
    rw [show addRanks m (r :: rs) v = addRanks (addToRank m r v) rs v from rfl]
    rw [ih _ v x hnd']
    by_cases hx : x = r
    · subst hx
      rw [findRank_addToRank_self]
      rw [if_neg hr, if_pos (List.mem_cons_self _ _)]
      simp
    · rw [findRank_addToRank_ne _ hx]
      rw [show (if x ∈ r :: rs then [v] else []) = (if x ∈ rs then [v] else []) from by
        by_cases hxs : x ∈ rs
        · rw [if_pos hxs, if_pos (List.mem_cons_of_mem _ hxs)]
        · rw [if_neg hxs, if_neg (by
            intro hcon
            rcases List.mem_cons.1 hcon with h | h
            · exact hx h
            · exact hxs h)]]

theorem findRank_getD_addAllPairs (pairs : List (Str × Bool)) :
    ∀ (m : RankMap) (x : Str), (∀ q ∈ pairs, (ranksOfLine q.1).Nodup) →
    (findRank (addAllPairs m pairs) x).getD []
      = (findRank m x).getD []
        ++ (pairs.filter (fun q => decide (x ∈ ranksOfLine q.1))).map
            (fun q => mkJumanLine (splitChar '\t' q.1) q.2) := by
  induction pairs with
  | nil => intro m x _; simp [addAllPairs]
  | cons q ps ih =>
    intro m x hnd
    rw [show addAllPairs m (q :: ps)
        = addAllPairs (addRanks m (ranksOfLine q.1)
            (mkJumanLine (splitChar '\t' q.1) q.2)) ps from rfl]
    rw [ih _ x (fun p hp => hnd p (List.mem_cons_of_mem _ hp))]
    rw [findRank_getD_addRanks _ _ _ _ (hnd q (List.mem_cons_self _ _))]
    rw [List.filter_cons]
    by_cases hx : x ∈ ranksOfLine q.1
    · simp [hx, List.append_assoc]
    · simp [hx]

/-- Specification flag sequence for a list of morpheme-identifier fields:
the first line gets no continuation flag, each later line is flagged iff
its id equals the immediately preceding line's id. -/
def specFlags (ids : List Str) : List Bool :=
  match ids with
  | [] => []
  | i0 :: rest => false :: List.zipWith (fun a b => a == b) rest (i0 :: rest)

theorem flagsFrom_eq_specFlags (ids : List Str)
    (h : ∀ i ∈ ids, i ≠ strL "0") :
    flagsFrom ids (strL "0") = specFlags ids := by
  cases ids with
  | nil => rfl
  | cons i0 rest =>
    have h0 : (i0 == strL "0") = false :=
      beq_eq_false_iff_ne.2 (h i0 (List.mem_cons_self _ _))
    rw [show flagsFrom (i0 :: rest) (strL "0")
        = (i0 == strL "0") :: flagsFrom rest i0 from rfl]
    rw [h0, flagsFrom_zipWith]
    rfl

/-- C1: on a well-formed lattice input with k distinct rank identifiers the
converter returns exactly k blocks, one per rank, ordered by sorting the
rank identifiers, where each block is the tracked comment line, a newline,
that rank's accumulated reconstructed lines joined by newlines, a newline,
and the sentence-end marker EOS (`blockStr`). -/
theorem lattice_all2juman_lines_block_structure (input : Str) (hwf : WFLattice input) :
    ∃ entries : RankMap,
      lattice_all2juman_lines input =
        .ok (entries.map fun e => blockStr (commentFold (linesOf input) []) e.2) ∧
      entries.Perm (addAllPairs [] (morphPairs (linesOf input) (strL "0"))) ∧
      List.Sorted (· ≤ ·) (entries.map Prod.fst) ∧
      (entries.map Prod.fst).Perm (distinctRanks input) ∧
      (distinctRanks input).Nodup ∧
      entries.length = (distinctRanks input).length ∧
      ∀ r : Str, r ∈ distinctRanks input ↔
        ∃ l ∈ morphLines (linesOf input), r ∈ ranksOfLine l := by
  refine ⟨List.insertionSort entryLe
      (addAllPairs [] (morphPairs (linesOf input) (strL "0"))),
    lattice_all2juman_lines_eq input hwf,
    List.perm_insertionSort _ _, ?_, ?_, distinctRanks_nodup input, ?_,
    mem_distinctRanks input⟩
  · exact (List.sorted_insertionSort entryLe _).map _ (fun a b h => h)
  · have hp := (List.perm_insertionSort entryLe
      (addAllPairs [] (morphPairs (linesOf input) (strL "0")))).map Prod.fst
    rw [show (addAllPairs [] (morphPairs (linesOf input) (strL "0"))).map Prod.fst
        = keysOf (addAllPairs [] (morphPairs (linesOf input) (strL "0"))) from rfl,
      keysOf_replay] at hp
    exact hp
  · have h1 := (List.perm_insertionSort entryLe
      (addAllPairs [] (morphPairs (linesOf input) (strL "0")))).length_eq
    have h2 : (addAllPairs [] (morphPairs (linesOf input) (strL "0"))).length
        = (distinctRanks input).length := by
      rw [← keysOf_replay input]
      exact (List.length_map _ _).symm
    rw [h1, h2]

/-- C2: on a well-formed lattice input whose morpheme-identifier fields
never equal the sentinel "0" that the loop initializes `prev_id` with, the
converter output is exactly the output computed with the specification
flags: the first morpheme line unmarked, and each later line marked iff its
id field equals the previous morpheme line's id field; the `@ ` marker is
prepended to a reconstructed line exactly when its flag is set. -/
theorem lattice_all2juman_lines_continuation_marker (input : Str) (hwf : WFLattice input)
    (h0 : ∀ l ∈ morphLines (linesOf input), field1 l ≠ strL "0") :
    lattice_all2juman_lines input =
      .ok ((List.insertionSort entryLe
            (addAllPairs []
              ((morphLines (linesOf input)).zip
                (specFlags ((morphLines (linesOf input)).map field1))))).map
          fun e => blockStr (commentFold (linesOf input) []) e.2)
    ∧ ∀ values : List Str, mkJumanLine values true = strL "@ " ++ mkJumanLine values false := by
  constructor
  · rw [lattice_all2juman_lines_eq input hwf]
    unfold morphPairs
    rw [flagsFrom_eq_specFlags _ (by
      intro i hi
      rcases List.mem_map.1 hi with ⟨l, hl, hfl⟩
      rw [← hfl]
      exact h0 l hl)]
  · intro values
    rfl

/-- C3: on a well-formed lattice input where each line's rank set (last
pipe-delimited segment of the line, last colon-delimited component,
split on semicolons — `ranksOfLine`) has no duplicates, each rank's
accumulated sequence consists of the reconstructed lines of exactly the
morpheme-record lines whose rank set contains that rank, in source order;
comment and EOS lines are never appended. -/
theorem lattice_all2juman_lines_rank_assignment (input : Str) (hwf : WFLattice input)
    (hnd : ∀ l ∈ morphLines (linesOf input), (ranksOfLine l).Nodup) :
    lattice_all2juman_lines input =
      .ok ((List.insertionSort entryLe
            (addAllPairs [] (morphPairs (linesOf input) (strL "0")))).map
          fun e => blockStr (commentFold (linesOf input) []) e.2)
    ∧ ∀ r : Str,
        (findRank (addAllPairs [] (morphPairs (linesOf input) (strL "0"))) r).getD []
          = ((morphPairs (linesOf input) (strL "0")).filter
              (fun q => decide (r ∈ ranksOfLine q.1))).map
              (fun q => mkJumanLine (splitChar '\t' q.1) q.2) := by
  refine ⟨lattice_all2juman_lines_eq input hwf, fun r => ?_⟩
  rw [findRank_getD_addAllPairs _ _ r (by
    intro q hq
    have hq1 : q.1 ∈ morphLines (linesOf input) := by
      rw [← morphPairs_map_fst (linesOf input) (strL "0")]
      exact List.mem_map_of_mem Prod.fst hq
    exact hnd q.1 hq1)]
  simp [findRank]

/-- Concrete well-formed two-rank lattice input used to instantiate the
converter theorems: one comment line, two 18-field morpheme lines (the
first on ranks 1 and 2, the second on rank 2 only), and the EOS line. -/
def exLat : Str :=
  strL "# S-ID:1\n0\t1\tc\td\te\tf\tg\th\ti\tj\tk\tl\tm\tn\to\tp\tq\tA|B:1;2\n1\t2\tc\td\te\tF\tG\tH\tI\tJ\tK\tL\tM\tN\tO\tP\tQ\tA|B:2\nEOS"

/-- Witness for the block-structure theorem at the concrete input
`exLat`. -/
theorem lattice_all2juman_lines_block_structure_witness :
    WFLattice exLat ∧
    ∃ entries : RankMap,
      lattice_all2juman_lines exLat =
        .ok (entries.map fun e => blockStr (commentFold (linesOf exLat) []) e.2) ∧
      entries.Perm (addAllPairs [] (morphPairs (linesOf exLat) (strL "0"))) ∧
      List.Sorted (· ≤ ·) (entries.map Prod.fst) ∧
      (entries.map Prod.fst).Perm (distinctRanks exLat) ∧
      (distinctRanks exLat).Nodup ∧
      entries.length = (distinctRanks exLat).length ∧
      ∀ r : Str, r ∈ distinctRanks exLat ↔
        ∃ l ∈ morphLines (linesOf exLat), r ∈ ranksOfLine l :=
  ⟨by decide, lattice_all2juman_lines_block_structure exLat (by decide)⟩

/-- Witness for the continuation-marker theorem at the concrete input
`exLat`. -/
theorem lattice_all2juman_lines_continuation_marker_witness :
    (WFLattice exLat ∧ ∀ l ∈ morphLines (linesOf exLat), field1 l ≠ strL "0") ∧
    (lattice_all2juman_lines exLat =
      .ok ((List.insertionSort entryLe
            (addAllPairs []
              ((morphLines (linesOf exLat)).zip
                (specFlags ((morphLines (linesOf exLat)).map field1))))).map
          fun e => blockStr (commentFold (linesOf exLat) []) e.2)
    ∧ ∀ values : List Str, mkJumanLine values true = strL "@ " ++ mkJumanLine values false) :=
  ⟨⟨by decide, by decide⟩,
   lattice_all2juman_lines_continuation_marker exLat (by decide) (by decide)⟩

/-- Witness for the rank-assignment theorem at the concrete input
`exLat`. -/
theorem lattice_all2juman_lines_rank_assignment_witness :
    (WFLattice exLat ∧ ∀ l ∈ morphLines (linesOf exLat), (ranksOfLine l).Nodup) ∧
    (lattice_all2juman_lines exLat =
      .ok ((List.insertionSort entryLe
            (addAllPairs [] (morphPairs (linesOf exLat) (strL "0")))).map
          fun e => blockStr (commentFold (linesOf exLat) []) e.2)
    ∧ ∀ r : Str,
        (findRank (addAllPairs [] (morphPairs (linesOf exLat) (strL "0"))) r).getD []
          = ((morphPairs (linesOf exLat) (strL "0")).filter
              (fun q => decide (r ∈ ranksOfLine q.1))).map
              (fun q => mkJumanLine (splitChar '\t' q.1) q.2)) :=
  ⟨⟨by decide, by decide⟩,
   lattice_all2juman_lines_rank_assignment exLat (by decide) (by decide)⟩

instance {ε α : Type} [DecidableEq ε] [DecidableEq α] : DecidableEq (Except ε α) :=
  fun a b =>
    match a, b with
    | .error e, .error f =>
        decidable_of_iff (e = f) ⟨fun h => by rw [h], fun h => by injection h⟩
    | .ok x, .ok y =>
        decidable_of_iff (x = y) ⟨fun h => by rw [h], fun h => by injection h⟩
    | .error _, .ok _ => isFalse (fun h => Except.noConfusion h)
    | .ok _, .error _ => isFalse (fun h => Except.noConfusion h)

theorem splitChar_ne_nil (sep : Char) (s : Str) : splitChar sep s ≠ [] := by
  cases s with
  | nil => simp [splitChar]
  | cons c rest =>
    unfold splitChar
    by_cases h : c = sep
    · simp [h]
    · simp only [h, if_false]
      cases splitChar sep rest <;> simp

/-- Concrete 18-field morpheme line with no rank annotation at all (no pipe,
colon or semicolon anywhere): the rank derivation degenerates to the whole
line. -/
def exNoRank : Str := strL "a\tb\tc\td\te\tf\tg\th\ti\tj\tk\tl\tm\tn\to\tp\tq\tr"

/-- Counterexample to C6: on an input whose only line lacks the expected
rank annotation, the converter does not surface any malformed-input error:
it succeeds, silently treating the whole line as a rank identifier and
emitting one block containing the reconstructed line. -/
theorem lattice_all2juman_lines_no_rank_annotation_ok :
    lattice_all2juman_lines exNoRank =
      .ok [strL "\nf h i j k l m n o p q \"代表表記:g r\"\nEOS"] := by
  decide

/-- Amended C6: the converter performs no rank validation: a rank set is
never empty (splitting always yields at least one, possibly garbage,
identifier), and any input whose morpheme-record lines carry 18 tab fields
converts successfully, no matter whether the rank annotation is present. -/
theorem lattice_all2juman_lines_no_rank_validation (input : Str) (hwf : WFLattice input) :
    (∃ bs, lattice_all2juman_lines input = .ok bs) ∧
    ∀ line : Str, ranksOfLine line ≠ [] := by
  constructor
  · exact ⟨_, lattice_all2juman_lines_eq input hwf⟩
  · intro line
    exact splitChar_ne_nil ';' _

/-- Witness for the amended C6 theorem at the concrete input `exNoRank`. -/
theorem lattice_all2juman_lines_no_rank_validation_witness :
    WFLattice exNoRank ∧
    ((∃ bs, lattice_all2juman_lines exNoRank = .ok bs) ∧
     ∀ line : PyKNP.Str, ranksOfLine line ≠ []) :=
  ⟨by decide, lattice_all2juman_lines_no_rank_validation exNoRank (by decide)⟩

theorem isMorphLine_iff {l : Str} :
    isMorphLine l = true ↔ (startsWithHash l = false ∧ l ≠ strL "EOS") := by
  simp [isMorphLine, Bool.and_eq_true, Bool.not_eq_true']

/-- Error behaviour of the main loop: with all of `pre` well formed, a
morpheme-record line `bad` with fewer than 2 tab fields makes the loop fail
at the `values[1]` subscript, and one with 2 to 17 fields makes it fail
inside `lattice2juman_line`. -/
theorem latticeLoop_error (pre : List Str) : ∀ (post : List Str) (bad c p : Str)
    (m : RankMap),
    (∀ l ∈ morphLines pre, 18 ≤ (splitChar '\t' l).length) →
    isMorphLine bad = true →
    (((splitChar '\t' bad).length < 2 →
        latticeLoop (pre ++ bad :: post) c p m = .error .mrphIdIndex) ∧
     (2 ≤ (splitChar '\t' bad).length → (splitChar '\t' bad).length < 18 →
        latticeLoop (pre ++ bad :: post) c p m = .error .reconstructIndex)) := by
  induction pre with
  | nil =>
    intro post bad c p m _ hbad
    obtain ⟨hh, he⟩ := isMorphLine_iff.1 hbad
    constructor
    · intro hlt
      have hnone : (splitChar '\t' bad)[1]? = none :=
        List.getElem?_eq_none (by omega)
      simp [latticeLoop, hh, he, hnone]
    · intro h2 h18
      have h1 : 1 < (splitChar '\t' bad).length := by omega
      have hv : (splitChar '\t' bad)[1]? = some ((splitChar '\t' bad)[1]) :=
        List.getElem?_eq_getElem h1
      have hn18 : ¬ 18 ≤ (splitChar '\t' bad).length := by omega
      have hjl : ∀ b : Bool, lattice2juman_line (splitChar '\t' bad) b
          = .error .reconstructIndex := by
        intro b
        simp [lattice2juman_line, hn18]
      simp [latticeLoop, hh, he, hv, hjl]
  | cons l rest ih =>
    intro post bad c p m hpre hbad
    by_cases hh : startsWithHash l = true
    · have hm2 : morphLines (l :: rest) = morphLines rest := by
        simp [morphLines, List.filter_cons, isMorphLine, hh]
      have hrest : ∀ x ∈ morphLines rest, 18 ≤ (splitChar '\t' x).length := by
        intro x hx
        exact hpre x (by rw [hm2]; exact hx)
      have := ih post bad l p m hrest hbad
      constructor
      · intro hlt
        simpa [latticeLoop, hh] using this.1 hlt
      · intro h2 h18
        simpa [latticeLoop, hh] using this.2 h2 h18
    · by_cases he : l = strL "EOS"
      · have hm2 : morphLines (l :: rest) = morphLines rest := by
          simp [morphLines, List.filter_cons, isMorphLine, hh, he]
        have hrest : ∀ x ∈ morphLines rest, 18 ≤ (splitChar '\t' x).length := by
          intro x hx
          exact hpre x (by rw [hm2]; exact hx)
        have := ih post bad c p m hrest hbad
        constructor
        · intro hlt
          simpa [latticeLoop, hh, he] using this.1 hlt
        · intro h2 h18
          simpa [latticeLoop, hh, he] using this.2 h2 h18
      · have hml : isMorphLine l = true := by simp [isMorphLine, hh, he]
        have hmm : morphLines (l :: rest) = l :: morphLines rest := by
          simp [morphLines, List.filter_cons, hml]
        have hrest : ∀ x ∈ morphLines rest, 18 ≤ (splitChar '\t' x).length := by
          intro x hx
          exact hpre x (by rw [hmm]; exact List.mem_cons_of_mem _ hx)
        have hlen : 18 ≤ (splitChar '\t' l).length :=
          hpre l (by rw [hmm]; exact List.mem_cons_self _ _)
        have h1 : 1 < (splitChar '\t' l).length := lt_of_lt_of_le (by norm_num) hlen
        have hv : (splitChar '\t' l)[1]? = some ((splitChar '\t' l)[1]) :=
          List.getElem?_eq_getElem h1
        have hjl : lattice2juman_line (splitChar '\t' l) ((splitChar '\t' l)[1] == p)
            = .ok (mkJumanLine (splitChar '\t' l) ((splitChar '\t' l)[1] == p)) := by
          simp [lattice2juman_line, hlen]
        have := ih post bad c
          (if (splitChar '\t' l)[1] = p then p else (splitChar '\t' l)[1])
          (addRanks m (ranksOfLine l)
            (mkJumanLine (splitChar '\t' l) ((splitChar '\t' l)[1] == p)))
          hrest hbad
        constructor
        · intro hlt
          simpa [latticeLoop, hh, he, hv, hjl] using this.1 hlt
        · intro h2 h18
          simpa [latticeLoop, hh, he, hv, hjl] using this.2 h2 h18

/-- C10: the converter is partial at its public interface: a line that is
neither a comment nor EOS with fewer than 2 tab fields (for example the
empty line left by a trailing newline after the final EOS) raises
IndexError at the morpheme-identifier subscript, and such a line with 2 to
17 fields raises IndexError during flat-line reconstruction; either way the
whole conversion aborts with the error. -/
theorem lattice_all2juman_lines_index_error (input : Str) (pre post : List Str)
    (bad : Str)
    (hsplit : linesOf input = pre ++ bad :: post)
    (hpre : ∀ l ∈ morphLines pre, 18 ≤ (splitChar '\t' l).length)
    (hbad : isMorphLine bad = true) :
    ((splitChar '\t' bad).length < 2 →
      lattice_all2juman_lines input = .error .mrphIdIndex) ∧
    (2 ≤ (splitChar '\t' bad).length → (splitChar '\t' bad).length < 18 →
      lattice_all2juman_lines input = .error .reconstructIndex) := by
  have h := latticeLoop_error pre post bad [] (strL "0") [] hpre hbad
  constructor
  · intro hlt
    unfold lattice_all2juman_lines
    rw [show splitChar '\n' input = linesOf input from rfl, hsplit, h.1 hlt]
  · intro h2 h18
    unfold lattice_all2juman_lines
    rw [show splitChar '\n' input = linesOf input from rfl, hsplit, h.2 h2 h18]

/-- The input consisting of the EOS line followed by a trailing newline:
its final empty line is a morpheme-record line with a single (empty) tab
field. -/
def exTrailingNewline : Str := strL "EOS\n"

/-- A single morpheme-record line with only 2 of the 18 expected tab
fields. -/
def exShortLine : Str := strL "a\tb"

/-- Witness for the partiality theorem: the trailing-newline input fails at
the morpheme-identifier subscript, and the short-line input fails during
flat-line reconstruction. -/
theorem lattice_all2juman_lines_index_error_witness :
    (linesOf exTrailingNewline = [strL "EOS"] ++ [] :: [] ∧
     (∀ l ∈ morphLines [strL "EOS"], 18 ≤ (splitChar '\t' l).length) ∧
     isMorphLine [] = true) ∧
    lattice_all2juman_lines exTrailingNewline = .error .mrphIdIndex ∧
    lattice_all2juman_lines exShortLine = .error .reconstructIndex :=
  ⟨⟨by decide, by decide, by decide⟩,
   (lattice_all2juman_lines_index_error exTrailingNewline [strL "EOS"] [] []
      (by decide) (by decide) (by decide)).1 (by decide),
   (lattice_all2juman_lines_index_error exShortLine [] [] (strL "a\tb")
      (by decide) (by decide) (by decide)).2 (by decide) (by decide)⟩

/-!
Analyzer (`pyknp/utils/analyzer.py`). The `Socket` and `Subprocess` channel
classes live in `pyknp/utils/process.py`, outside the verified core; they
are embedded as inert handles recording their constructor arguments, since
only the construction logic of `Analyzer.query` is at issue here.
-/

structure SocketHandle where
  server : Str
  port : Option Nat
  socket_option : Option Str
deriving DecidableEq

structure SubprocessHandle where
  command : Option (List Str)
deriving DecidableEq

/-- Fields of an `Analyzer` object. -/
structure AnalyzerState where
  backend : Str
  server : Option Str
  port : Option Nat
  socket : Option SocketHandle
  socket_option : Option Str
  subprocess : Option SubprocessHandle
  command : Option (List Str)
deriving DecidableEq

/-- `Analyzer.__init__(backend, server=None, port=None, socket_option=None,
command=None)`: stores the arguments and leaves both handles unset. -/
def Analyzer_init (backend : Str) (server : Option Str) (port : Option Nat)
    (socket_option : Option Str) (command : Option (List Str)) : AnalyzerState :=
  { backend := backend, server := server, port := port, socket := none,
    socket_option := socket_option, subprocess := none, command := command }

/-- The guard `not self.socket and not self.subprocess` at the top of
`Analyzer.query`: true exactly when this call will construct a backend
(neither handle is set; a set handle object is always truthy). -/
def queryConstructs (a : AnalyzerState) : Bool :=
  a.socket.isNone && a.subprocess.isNone

/-- State effect of one `Analyzer.query` call: on a constructing call,
build the Socket handle when `self.server is not None` and the Subprocess
handle otherwise; any other call leaves the state unchanged. The line I/O
performed by `socket.query`/`subprocess.query` is external and does not
touch these fields. -/
def queryStep (a : AnalyzerState) : AnalyzerState :=
  if queryConstructs a then
    match a.server with
    | some s => { a with socket := some ⟨s, a.port, a.socket_option⟩ }
    | none => { a with subprocess := some ⟨a.command⟩ }
  else a

/-- Number of backend constructions performed across `n` successive
`query` calls starting from state `a`. -/
def constructionsIn : Nat → AnalyzerState → Nat
  | 0, _ => 0
  | n + 1, a => (if queryConstructs a then 1 else 0) + constructionsIn n (queryStep a)

theorem queryStep_stable {a : AnalyzerState} (h : queryConstructs a = false) :
    queryStep a = a := by
  simp [queryStep, h]

theorem queryConstructs_queryStep (a : AnalyzerState) :
    queryConstructs (queryStep a) = false := by
  by_cases h : queryConstructs a = true
  · unfold queryStep
    rw [if_pos h]
    cases hs : a.server <;> simp [queryConstructs]
  · have hf : queryConstructs a = false := by
      revert h; cases queryConstructs a <;> simp
    rw [queryStep_stable hf]
    exact hf

theorem constructionsIn_stable (n : Nat) : ∀ {a : AnalyzerState},
    queryConstructs a = false → constructionsIn n a = 0 := by
  induction n with
  | zero => intro a _; rfl
  | succ k ih =>
    intro a h
    rw [show constructionsIn (k + 1) a
        = (if queryConstructs a then 1 else 0) + constructionsIn k (queryStep a) from rfl]
    rw [h, queryStep_stable h, ih h]
    simp

theorem iterate_queryStep_stable (k : Nat) : ∀ {a : AnalyzerState},
    queryConstructs a = false → queryStep^[k] a = a := by
  induction k with
  | zero => intro a _; rfl
  | succ j ih =>
    intro a h
    rw [Function.iterate_succ_apply, queryStep_stable h, ih h]

/-- C4: for any Analyzer construction arguments and any N ≥ 1, N calls to
`query` construct the backend exactly once; the state after N calls is the
state after the first call; and the one construction picks the Socket
handle when a server was supplied and the Subprocess handle otherwise. -/
theorem analyzer_constructs_backend_once (backend : Str) (server : Option Str)
    (port : Option Nat) (socket_option : Option Str) (command : Option (List Str))
    (N : Nat) (hN : 1 ≤ N) :
    constructionsIn N (Analyzer_init backend server port socket_option command) = 1 ∧
    queryStep^[N] (Analyzer_init backend server port socket_option command)
      = queryStep (Analyzer_init backend server port socket_option command) ∧
    (∀ s, server = some s →
      (queryStep (Analyzer_init backend server port socket_option command)).socket
          = some ⟨s, port, socket_option⟩ ∧
      (queryStep (Analyzer_init backend server port socket_option command)).subprocess
          = none) ∧
    (server = none →
      (queryStep (Analyzer_init backend server port socket_option command)).subprocess
          = some ⟨command⟩ ∧
      (queryStep (Analyzer_init backend server port socket_option command)).socket
          = none) := by
  obtain ⟨k, rfl⟩ : ∃ k, N = k + 1 := ⟨N - 1, by omega⟩
  have hc : queryConstructs (Analyzer_init backend server port socket_option command)
      = true := rfl
  refine ⟨?_, ?_, ?_, ?_⟩
  · rw [show constructionsIn (k + 1) (Analyzer_init backend server port socket_option command)
        = (if queryConstructs (Analyzer_init backend server port socket_option command)
            then 1 else 0)
          + constructionsIn k
              (queryStep (Analyzer_init backend server port socket_option command)) from rfl]
    rw [hc, constructionsIn_stable k (queryConstructs_queryStep _)]
    simp
  · rw [Function.iterate_succ_apply,
      iterate_queryStep_stable k (queryConstructs_queryStep _)]
  · intro s hs
    subst hs
    simp [queryStep, Analyzer_init, queryConstructs]
  · intro hs
    subst hs
    simp [queryStep, Analyzer_init, queryConstructs]

/-- Witness for the single-construction theorem: the socket configuration
used by KNP, queried three times. -/
theorem analyzer_constructs_backend_once_witness :
    1 ≤ 3 ∧
    (constructionsIn 3 (Analyzer_init (strL "socket") (some (strL "h")) (some 31000)
        (some (strL "RUN -tab -normal\n")) none) = 1 ∧
     queryStep^[3] (Analyzer_init (strL "socket") (some (strL "h")) (some 31000)
        (some (strL "RUN -tab -normal\n")) none)
       = queryStep (Analyzer_init (strL "socket") (some (strL "h")) (some 31000)
          (some (strL "RUN -tab -normal\n")) none) ∧
     (∀ s, some (strL "h") = some s →
       (queryStep (Analyzer_init (strL "socket") (some (strL "h")) (some 31000)
          (some (strL "RUN -tab -normal\n")) none)).socket
           = some ⟨s, some 31000, some (strL "RUN -tab -normal\n")⟩ ∧
       (queryStep (Analyzer_init (strL "socket") (some (strL "h")) (some 31000)
          (some (strL "RUN -tab -normal\n")) none)).subprocess = none) ∧
     (some (strL "h") = none →
       (queryStep (Analyzer_init (strL "socket") (some (strL "h")) (some 31000)
          (some (strL "RUN -tab -normal\n")) none)).subprocess = some ⟨none⟩ ∧
       (queryStep (Analyzer_init (strL "socket") (some (strL "h")) (some 31000)
          (some (strL "RUN -tab -normal\n")) none)).socket = none)) :=
  ⟨by decide,
   analyzer_constructs_backend_once (strL "socket") (some (strL "h")) (some 31000)
     (some (strL "RUN -tab -normal\n")) none 3 (by decide)⟩

/-!
KNP construction (`pyknp/knp/knp.py`, `KNP.__init__`). The external calls
`os.path.isfile` (composed with `expanduser`) and
`distutils.spawn.find_executable` are abstracted into an environment
record. Python keyword-argument checking is embedded by listing, from the
source, the parameter names accepted by `Analyzer.__init__` and the keyword
names each call site passes, and failing with a `TypeError` on the first
unexpected keyword, as CPython does.
-/

/-- Python whitespace for no-separator `str.split()`. -/
def pyIsSpace (c : Char) : Bool :=
  c = ' ' || c = '\t' || c = '\n' || c = '\r' || c = '\x0b' || c = '\x0c'

def splitWSAux : Str → Str → List Str
  | [], acc => if acc = [] then [] else [acc.reverse]
  | c :: rest, acc =>
    if pyIsSpace c then
      if acc = [] then splitWSAux rest []
      else acc.reverse :: splitWSAux rest []
    else splitWSAux rest (c :: acc)

/-- Python `option.split()` (no separator): split on whitespace runs,
discarding empty pieces. -/
def splitWS (s : Str) : List Str := splitWSAux s []

inductive KNPInitError where
  | typeError (kw : Str)
  | rcfileError (rcfile : Str)
  | commandError (command : Str)
deriving DecidableEq

/-- External filesystem and PATH lookups used by `KNP.__init__`. -/
structure KNPEnv where
  isFile : Str → Bool
  findExecutable : Str → Option Str

/-- Parameter names of `Analyzer.__init__` (besides `self`), from
`pyknp/utils/analyzer.py`. -/
def Analyzer_init_params : List Str :=
  [strL "backend", strL "server", strL "port", strL "socket_option", strL "command"]

/-- Keyword names passed by `KNP.__init__` in the server branch:
`Analyzer(backend='socket', timeout=..., server=..., port=...,
socket_option=...)`. -/
def knpSocketCallKwargs : List Str :=
  [strL "backend", strL "timeout", strL "server", strL "port", strL "socket_option"]

/-- Keyword names passed by `KNP.__init__` in the subprocess branch:
`Analyzer(backend='subprocess', multithreading=..., timeout=...,
command=...)`. -/
def knpSubprocessCallKwargs : List Str :=
  [strL "backend", strL "multithreading", strL "timeout", strL "command"]

/-- First passed keyword not accepted by the callee, if any (the keyword a
CPython `TypeError: unexpected keyword argument` reports). -/
def firstUnexpectedKwarg (passed accepted : List Str) : Option Str :=
  passed.find? (fun k => !accepted.contains k)

/-- Fields of a successfully constructed KNP object (the `Juman`
sub-tokenizer is external and omitted). -/
structure KNPState where
  command : Str
  server : Option Str
  port : Nat
  timeout : Nat
  options : List Str
  rcfile : Str
  pattern : Str
  analyzer : AnalyzerState
  jumanpp : Bool
deriving DecidableEq

/-- The configuration checks of `KNP.__init__` (its last two `if`
statements): a truthy (nonempty) `rcfile` that is not a file, then a
command that `find_executable` cannot locate, each raising an
exception. -/
def KNP_config_check (env : KNPEnv) (command rcfile : Str) : Except KNPInitError Unit :=
  if rcfile ≠ [] ∧ env.isFile rcfile = false then .error (.rcfileError rcfile)
  else if (env.findExecutable command).isNone then .error (.commandError command)
  else .ok ()

/-- `KNP.__init__`: store the configuration, construct the `Analyzer`
(whose keyword arguments are checked against `Analyzer.__init__`'s
signature; this is where CPython raises `TypeError`), then run the rcfile
and executable checks. The trailing `Juman` construction is external and
omitted. -/
def KNP_init (env : KNPEnv) (command : Str) (server : Option Str) (port timeout : Nat)
    (option rcfile pattern : Str) (jumanpp multithreading : Bool) :
    Except KNPInitError KNPState :=
  let options := splitWS option
  match server with
  | some s =>
    match firstUnexpectedKwarg knpSocketCallKwargs Analyzer_init_params with
    | some kw => .error (.typeError kw)
    | none =>
      let analyzer := Analyzer_init (strL "socket") (some s) (some port)
        (some (strL "RUN -tab -normal\n")) none
      match KNP_config_check env command rcfile with
      | .error e => .error e
      | .ok _ =>
          .ok ⟨command, some s, port, timeout, options, rcfile, pattern, analyzer, jumanpp⟩
  | none =>
    match firstUnexpectedKwarg knpSubprocessCallKwargs Analyzer_init_params with
    | some kw => .error (.typeError kw)
    | none =>
      let cmds := command :: options
        ++ (if rcfile ≠ [] then [strL "-r", rcfile] else [])
      let analyzer := Analyzer_init (strL "subprocess") none none none (some cmds)
      match KNP_config_check env command rcfile with
      | .error e => .error e
      | .ok _ =>
          .ok ⟨command, none, port, timeout, options, rcfile, pattern, analyzer, jumanpp⟩

/-- Shared fact: both Analyzer call sites in `KNP.__init__` pass a keyword
that `Analyzer.__init__` does not accept, so construction always fails with
a `TypeError` naming `timeout` (server branch) or `multithreading`
(subprocess branch), and the code after the call never runs. -/
theorem KNP_init_typeError_aux (env : KNPEnv) (command : Str) (server : Option Str)
    (port timeout : Nat) (option rcfile pattern : Str) (jumanpp multithreading : Bool) :
    KNP_init env command server port timeout option rcfile pattern jumanpp multithreading
      = .error (.typeError (match server with
          | some _ => strL "timeout"
          | none => strL "multithreading")) := by
  cases server <;> rfl

/-- C9: every call of `KNP.__init__`, whatever the arguments, raises a
`TypeError` while constructing the `Analyzer`, because it passes the
keyword `timeout` (and in the subprocess branch also `multithreading`)
which `Analyzer.__init__` does not accept; no KNP object is ever
constructed, and the rcfile/executable checks are unreachable. -/
theorem KNP_init_always_typeError (env : KNPEnv) (command : Str) (server : Option Str)
    (port timeout : Nat) (option rcfile pattern : Str) (jumanpp multithreading : Bool) :
    KNP_init env command server port timeout option rcfile pattern jumanpp multithreading
      = .error (.typeError (match server with
          | some _ => strL "timeout"
          | none => strL "multithreading")) :=
  KNP_init_typeError_aux env command server port timeout option rcfile pattern
    jumanpp multithreading

/-- C5: whenever the configured command cannot be located, or a nonempty
rcfile path is not an existing file, `KNP.__init__` raises synchronously at
construction time (no KNP object results, and the constructor contains no
retry), and the configuration-check code itself flags the bad
configuration. -/
theorem KNP_init_bad_config_fails (env : KNPEnv) (command : Str) (server : Option Str)
    (port timeout : Nat) (option rcfile pattern : Str) (jumanpp multithreading : Bool)
    (hbad : env.findExecutable command = none ∨
      (rcfile ≠ [] ∧ env.isFile rcfile = false)) :
    (KNP_init env command server port timeout option rcfile pattern jumanpp
        multithreading).isOk = false ∧
    (KNP_config_check env command rcfile).isOk = false := by
  constructor
  · rw [KNP_init_typeError_aux]
    rfl
  · unfold KNP_config_check
    rcases hbad with h | h
    · by_cases hrc : rcfile ≠ [] ∧ env.isFile rcfile = false
      · rw [if_pos hrc]
        rfl
      · rw [if_neg hrc, if_pos (by simp [h])]
        rfl
    · rw [if_pos h]
      rfl

/-- Environment in which no executable can be found and no path is a
file. -/
def emptyEnv : KNPEnv := ⟨fun _ => false, fun _ => none⟩

/-- Witness for the bad-configuration theorem: with the default command
name unresolvable, construction fails and the configuration check flags
it. -/
theorem KNP_init_bad_config_fails_witness :
    (emptyEnv.findExecutable (strL "knp") = none ∨
      (strL "" ≠ [] ∧ emptyEnv.isFile (strL "") = false)) ∧
    ((KNP_init emptyEnv (strL "knp") none 31000 60 (strL "-tab") (strL "")
        (strL "EOS") true false).isOk = false ∧
     (KNP_config_check emptyEnv (strL "knp") (strL "")).isOk = false) :=
  ⟨Or.inl rfl,
   KNP_init_bad_config_fails emptyEnv (strL "knp") none 31000 60 (strL "-tab")
     (strL "") (strL "EOS") true false (Or.inl rfl)⟩

/-!
Pipeline orchestration (`KNP.parse_juman_result` and
`KNP.reparse_knp_result`). The `BList` result object is external; it is
embedded as an inert record of its constructor arguments. `analyzer.query`
performs external line I/O; it is embedded as an oracle function from
(input text, pattern) to response text, and each call of the orchestrator
additionally returns the list of (input, pattern) queries it issued, in
order, so that query counts are visible in the model.
-/

/-- The `JUMAN_FORMAT` enumeration, as used by `knp.py`: the code branches
on `LATTICE_ALL` and treats every other value by the default path. -/
inductive JUMAN_FORMAT where
  | DEFAULT
  | LATTICE_ALL
deriving DecidableEq

/-- Constructor arguments of the external `BList` result object. -/
structure BListArgs where
  text : Str
  pattern : Str
  juman_format : JUMAN_FORMAT
deriving DecidableEq

/-- Return shape of `parse_juman_result`: a list of per-rank results in
lattice-all mode, a single result otherwise. -/
inductive ParseResult where
  | single (b : BListArgs)
  | multiple (bs : List BListArgs)
deriving DecidableEq

/-- The full-line termination pattern `r'^%s$' % self.pattern` built for
every Analyzer query. -/
def fullLinePattern (pattern : Str) : Str := strL "^" ++ pattern ++ strL "$"

/-- `KNP.parse_juman_result(juman_str, juman_format)`: in lattice-all mode,
run the Lattice Converter and issue one Analyzer query per produced block
(appending `EOS\n` to each response before building the per-rank `BList`
with the DEFAULT format); otherwise issue a single query and build one
`BList` with the caller's format. The second component lists the queries
issued. -/
def parse_juman_result (q : Str → Str → Str) (pattern : Str) (juman_str : Str)
    (juman_format : JUMAN_FORMAT) :
    Except LatticeError (ParseResult × List (Str × Str)) :=
  match juman_format with
  | .LATTICE_ALL =>
    match lattice_all2juman_lines juman_str with
    | .error e => .error e
    | .ok blocks =>
        .ok (.multiple (blocks.map fun b =>
              ⟨q b (fullLinePattern pattern) ++ strL "EOS\n", pattern, .DEFAULT⟩),
            blocks.map fun b => (b, fullLinePattern pattern))
  | f =>
    .ok (.single ⟨q juman_str (fullLinePattern pattern), pattern, f⟩,
        [(juman_str, fullLinePattern pattern)])

/-- `KNP.reparse_knp_result(knp_str, juman_format)`: by its own body and
docstring, identical to `parse_juman_result` on the same arguments. -/
def reparse_knp_result (q : Str → Str → Str) (pattern : Str) (knp_str : Str)
    (juman_format : JUMAN_FORMAT) :
    Except LatticeError (ParseResult × List (Str × Str)) :=
  parse_juman_result q pattern knp_str juman_format

/-- C7: in lattice-all mode the raw response goes through the Lattice
Converter first, then exactly one query per produced block is issued with
the full-line pattern, one `BList` is built per rank, and the results are
returned in the converter's block order; in default mode exactly one query
is issued and a single result returned. -/
theorem parse_juman_result_modes (q : Str → Str → Str) (pattern s : Str)
    (blocks : List Str) (hok : lattice_all2juman_lines s = .ok blocks) :
    parse_juman_result q pattern s .LATTICE_ALL =
      .ok (.multiple (blocks.map fun b =>
            ⟨q b (fullLinePattern pattern) ++ strL "EOS\n", pattern, .DEFAULT⟩),
          blocks.map fun b => (b, fullLinePattern pattern)) ∧
    (blocks.map fun b =>
        (⟨q b (fullLinePattern pattern) ++ strL "EOS\n", pattern,
          .DEFAULT⟩ : BListArgs)).length = blocks.length ∧
    (blocks.map fun b => (b, fullLinePattern pattern)).length = blocks.length ∧
    parse_juman_result q pattern s .DEFAULT =
      .ok (.single ⟨q s (fullLinePattern pattern), pattern, .DEFAULT⟩,
          [(s, fullLinePattern pattern)]) := by
  refine ⟨?_, List.length_map _ _, List.length_map _ _, rfl⟩
  unfold parse_juman_result
  rw [hok]

/-- C8: the re-analysis entry point agrees with `parse_juman_result` on
every input string and format. -/
theorem reparse_knp_result_eq_parse (q : Str → Str → Str) (pattern s : Str)
    (f : JUMAN_FORMAT) :
    reparse_knp_result q pattern s f = parse_juman_result q pattern s f := rfl

/-- Constant response oracle used to instantiate the orchestrator
theorem. -/
def qConst : Str → Str → Str := fun _ _ => strL "X"

/-- The two blocks the converter produces on `exLat`. -/
def exBlocks : List Str :=
  [strL "# S-ID:1\nf h i j k l m n o p q \"代表表記:g A B:1;2\"\nEOS",
   strL "# S-ID:1\nf h i j k l m n o p q \"代表表記:g A B:1;2\"\nF H I J K L M N O P Q \"代表表記:G A B:2\"\nEOS"]

/-- Witness for the orchestrator theorem at the concrete lattice input
`exLat` with the constant oracle. -/
theorem parse_juman_result_modes_witness :
    lattice_all2juman_lines exLat = .ok exBlocks ∧
    (parse_juman_result qConst (strL "EOS") exLat .LATTICE_ALL =
      .ok (.multiple (exBlocks.map fun b =>
            ⟨qConst b (fullLinePattern (strL "EOS")) ++ strL "EOS\n", strL "EOS", .DEFAULT⟩),
          exBlocks.map fun b => (b, fullLinePattern (strL "EOS"))) ∧
    (exBlocks.map fun b =>
        (⟨qConst b (fullLinePattern (strL "EOS")) ++ strL "EOS\n", strL "EOS",
          .DEFAULT⟩ : BListArgs)).length = exBlocks.length ∧
    (exBlocks.map fun b => (b, fullLinePattern (strL "EOS"))).length = exBlocks.length ∧
    parse_juman_result qConst (strL "EOS") exLat .DEFAULT =
      .ok (.single ⟨qConst exLat (fullLinePattern (strL "EOS")), strL "EOS", .DEFAULT⟩,
          [(exLat, fullLinePattern (strL "EOS"))])) :=
  ⟨by decide, parse_juman_result_modes qConst (strL "EOS") exLat exBlocks (by decide)⟩

end PyKNP
